import Mathlib

/-!
# Verification of the Pantry Normalization & Recipe Recommendation engine

Shallow embedding of the algorithmic core of
`src/app/components/RecipeRecommender.tsx`:

* `parseManualEntry` — the free-text pantry parser (split on commas and
  newlines, trim, drop empties, and per segment match the JavaScript regex
  `/^(\d+(?:\.\d+)?)\s*(\w+)?\s+(.*)$/` with backtracking semantics);
* `detectIngredients` — the pure post-processing of vision detections
  (confidence filter at `0.4`, label lowercasing, allow-list filter,
  quantity proxy `confidence * 2` rounded to two decimals, mean confidence);
* `formatQuantity` / `scaleRecipe` — the serving scaler of `RecipeCard`
  (multiplier `servings / baseServings` and the three-branch display
  rounding policy).

JavaScript numbers are modelled as exact rationals (`ℚ`); `toFixed(n)`
followed by `parseFloat` is modelled as rounding half-up at `n` decimal
places.  Characters are Lean `Char`s (Unicode code points), and the regex
character classes `\s`, `\d`, `\w`, `.` are the ECMAScript classes over
code points (no `u` flag, so `\d`/`\w` are ASCII).
-/

/-- ECMAScript `\s` (also the character set removed by `String.prototype.trim`):
WhiteSpace and LineTerminator code points. -/
def jsSpace (c : Char) : Bool :=
  c.toNat = 9 || c.toNat = 10 || c.toNat = 11 || c.toNat = 12 || c.toNat = 13 ||
  c.toNat = 32 || c.toNat = 160 || c.toNat = 5760 ||
  (8192 ≤ c.toNat && c.toNat ≤ 8202) || c.toNat = 8232 || c.toNat = 8233 ||
  c.toNat = 8239 || c.toNat = 8287 || c.toNat = 12288 || c.toNat = 65279

/-- ECMAScript `\d`: the ASCII digits `0`–`9`. -/
def jsDigit (c : Char) : Bool :=
  48 ≤ c.toNat && c.toNat ≤ 57

/-- ECMAScript `\w`: ASCII letters, digits and underscore. -/
def jsWord (c : Char) : Bool :=
  jsDigit c || (65 ≤ c.toNat && c.toNat ≤ 90) || (97 ≤ c.toNat && c.toNat ≤ 122) ||
  c.toNat = 95

/-- ECMAScript `.` without the `s` flag: any character except LF, CR, LS, PS. -/
def jsDot (c : Char) : Bool :=
  !(c.toNat = 10 || c.toNat = 13 || c.toNat = 8232 || c.toNat = 8233)

/-- Length of the maximal prefix of `cs` whose characters satisfy `p`. -/
def runLen (p : Char → Bool) : List Char → Nat
  | [] => 0
  | c :: cs => if p c then runLen p cs + 1 else 0

/-- `input.split(/,|\n/)`: split a character list at every comma or newline
(separators are consumed; empty fields are kept, exactly as in JavaScript). -/
def splitSegs : List Char → List (List Char)
  | [] => [[]]
  | c :: cs =>
    if c = ',' || c = '\n' then [] :: splitSegs cs
    else
      match splitSegs cs with
      | [] => [[c]]
      | s :: ss => (c :: s) :: ss

/-- `String.prototype.trim`: drop `jsSpace` characters from both ends. -/
def trimList (cs : List Char) : List Char :=
  ((cs.dropWhile jsSpace).reverse.dropWhile jsSpace).reverse

/-- `trim` lifted back to `String`. -/
def trimString (s : String) : String :=
  String.mk (trimList s.data)

/-- `[n, n-1, …, 0]`: the lengths a greedy `*` quantifier tries, in
backtracking order, when the maximal run has length `n`. -/
def descCounts (n : Nat) : List Nat :=
  (List.range (n + 1)).reverse

/-- `[n, n-1, …, 1]`: the lengths a greedy `+` quantifier tries, in
backtracking order, when the maximal run has length `n` (empty if `n = 0`). -/
def descCountsPos (n : Nat) : List Nat :=
  (List.range n).reverse.map (· + 1)

/-- Backtracking match of the regex tail `\s+(.*)$` against `rest2`;
returns the text captured by `(.*)` on success.  The `\s+` tries the
maximal space run first and gives characters back on failure; `(.*)$`
succeeds exactly when every remaining character is matched by `.`. -/
def tailAfterWs (rest2 : List Char) : Option (List Char) :=
  (descCountsPos (runLen jsSpace rest2)).findSome? fun i =>
    let g3 := rest2.drop i
    if g3.all jsDot then some g3 else none

/-- Backtracking match of the regex tail `(\w+)?\s+(.*)$` against `rest1`;
returns (captured optional unit token, captured name).  The optional word
group greedily tries the longest word run, shorter runs, then absence. -/
def tailAfterNum (rest1 : List Char) : Option (Option (List Char) × List Char) :=
  (((descCountsPos (runLen jsWord rest1)).map some) ++ [none]).findSome? fun oj =>
    match oj with
    | some j => (tailAfterWs (rest1.drop j)).map fun g3 => (some (rest1.take j), g3)
    | none => (tailAfterWs rest1).map fun g3 => (none, g3)

/-- Backtracking match of the regex tail `\s*(\w+)?\s+(.*)$` against `r`. -/
def matchTail (r : List Char) : Option (Option (List Char) × List Char) :=
  (descCounts (runLen jsSpace r)).findSome? fun i => tailAfterNum (r.drop i)

/-- All ways the leading group `(\d+(?:\.\d+)?)` can match a prefix of `cs`,
as (captured number token, remaining input) pairs in backtracking preference
order: the maximal digit run with a fractional part (longest fraction
first), the maximal digit run alone, then shorter digit runs.  Empty when
`cs` does not start with a digit. -/
def numberCands (cs : List Char) : List (List Char × List Char) :=
  let d := runLen jsDigit cs
  if d = 0 then []
  else
    let intFull := cs.take d
    let afterInt := cs.drop d
    let fracCands :=
      match afterInt with
      | '.' :: rest =>
        (descCountsPos (runLen jsDigit rest)).map fun j =>
          (intFull ++ '.' :: rest.take j, rest.drop j)
      | _ => []
    fracCands ++ [(intFull, afterInt)] ++
      ((descCountsPos (d - 1)).map fun i => (cs.take i, cs.drop i))

/-- `entry.match(/^(\d+(?:\.\d+)?)\s*(\w+)?\s+(.*)$/)`: the first
(leftmost-greedy, backtracking) match, returning the three capture groups
(number token, optional unit token, name). -/
def matchEntry (cs : List Char) : Option (List Char × Option (List Char) × List Char) :=
  (numberCands cs).findSome? fun p =>
    (matchTail p.2).map fun r => (p.1, r.1, r.2)

/-- Value of a list of ASCII digits read in base 10. -/
def digitsVal (cs : List Char) : Nat :=
  cs.foldl (fun n c => 10 * n + (c.toNat - 48)) 0

/-- `Number.parseFloat` on a token of the shape `\d+(\.\d+)?`, as an exact
rational. -/
def parseDec (cs : List Char) : ℚ :=
  match cs.span (fun c => c != '.') with
  | (ip, []) => (digitsVal ip : ℚ)
  | (ip, _ :: fp) => (digitsVal ip : ℚ) + (digitsVal fp : ℚ) / (10 : ℚ) ^ fp.length

/-- A pantry item: `{ name: string; quantity?: number }` from
`@/lib/recommendations` as used by `RecipeRecommender.tsx`. -/
structure PantryItem where
  name : String
  quantity : Option ℚ
deriving DecidableEq, Repr

/-- One segment of `parseManualEntry`: on a regex match, quantity is the
parsed number and the name is `unit + " " + name` (when a unit token was
captured) or the name capture alone, trimmed; otherwise the whole segment
becomes the name with no quantity. -/
def parseSegment (entry : List Char) : PantryItem :=
  match matchEntry entry with
  | some (qty, unitTok, nm) =>
    let pretty :=
      match unitTok with
      | some u => u ++ ' ' :: nm
      | none => nm
    ⟨String.mk (trimList pretty), some (parseDec qty)⟩
  | none => ⟨String.mk entry, none⟩

/-- `parseManualEntry` from `RecipeRecommender.tsx` (lines 61–78): split the
input on commas and newlines, trim each segment, drop empty segments, and
parse each remaining segment against the quantity/unit/name grammar. -/
def parseManualEntry (input : String) : List PantryItem :=
  (((splitSegs input.data).map trimList).filter (fun s => !s.isEmpty)).map parseSegment

/-- A character list that is exactly one numeral of the grammar's number
shape `\d+(\.\d+)?`: a non-empty digit run, optionally followed by a dot
and a non-empty digit run. -/
def numeralShape (cs : List Char) : Prop :=
  (cs ≠ [] ∧ ∀ c ∈ cs, jsDigit c = true) ∨
  (∃ ds fs, ds ≠ [] ∧ fs ≠ [] ∧ (∀ c ∈ ds, jsDigit c = true) ∧
    (∀ c ∈ fs, jsDigit c = true) ∧ cs = ds ++ '.' :: fs)

/-- Whitespace collapsing helper for the specification's normalizer: each
maximal run of whitespace becomes a single space.  The boolean records
whether the previous emitted character closed a whitespace run. -/
def collapseAux : Bool → List Char → List Char
  | _, [] => []
  | prevSpace, c :: cs =>
    if jsSpace c then
      if prevSpace then collapseAux true cs
      else ' ' :: collapseAux true cs
    else c :: collapseAux false cs

/-- Modelled from the spec (ItemNameNormalizer, §4.1), for comparison with
what the source parser actually produces: "Trims surrounding whitespace,
collapses internal whitespace to single spaces, lowercases." -/
def specNormalize (s : String) : String :=
  String.mk ((collapseAux false (trimList s.data)).map Char.toLower)

/-- One vision prediction, after the source's `.map` step renamed `class`
to `className`: `{ className: string; score: number }`. -/
structure Detection where
  className : String
  score : ℚ
deriving DecidableEq, Repr

/-- The fixed `allowedVisionLabels` set from `RecipeRecommender.tsx`
(lines 9–45), in source order; the source wraps this array in a `Set`, so
only membership matters and the duplicated entries are harmless. -/
def allowedVisionLabels : List String :=
  ["apple", "banana", "orange", "carrot", "broccoli", "cucumber", "tomato",
   "potato", "lemon", "lime", "pepper", "bell pepper", "cabbage", "lettuce",
   "onion", "garlic", "zucchini", "eggplant", "avocado", "mushroom", "egg",
   "bread", "sandwich", "pizza", "cake", "donut", "bowl", "apple", "banana",
   "grapes", "kiwi", "strawberry", "pineapple", "cheese", "yogurt"]

/-- `String.prototype.toLowerCase` restricted to ASCII case mapping (every
label this program compares is ASCII). -/
def lowerString (s : String) : String :=
  String.mk (s.data.map Char.toLower)

/-- The `ingredients` pipeline inside `detectIngredients` (lines 280–286):
keep predictions with `score >= 0.4`, lowercase each label, then keep only
allow-listed labels. -/
def detectionSurvivors (preds : List Detection) : List Detection :=
  ((preds.filter fun p => (0.4 : ℚ) ≤ p.score).map fun p =>
      (⟨lowerString p.className, p.score⟩ : Detection)).filter
    fun p => allowedVisionLabels.contains p.className

/-- `value.toFixed(2)` re-read with `parseFloat`: round half-up at two
decimal places. -/
def round2 (q : ℚ) : ℚ :=
  (round (q * 100) : ℚ) / 100

/-- `value.toFixed(1)` re-read with `parseFloat`: round half-up at one
decimal place. -/
def round1 (q : ℚ) : ℚ :=
  (round (q * 10) : ℚ) / 10

/-- `ingredients.reduce((total, ingredient) => total + ingredient.score, 0)`. -/
def sumScores (l : List Detection) : ℚ :=
  l.foldl (fun total p => total + p.score) 0

/-- The pure core of `detectIngredients` (lines 280–302): filtered
detections become pantry items (lowercased label, quantity
`score * 2` rounded to two decimals) plus the mean confidence; when nothing
survives the result is the empty list with confidence `0` (the source sets
`visionConfidence` to `0` and adds no items). -/
def detectIngredients (preds : List Detection) : List PantryItem × ℚ :=
  let ingredients := detectionSurvivors preds
  if ingredients.isEmpty then ([], 0)
  else
    (ingredients.map fun p => (⟨p.className, some (round2 (p.score * 2))⟩ : PantryItem),
     sumScores ingredients / (ingredients.length : ℚ))

/-- One catalog ingredient: `{ name, quantity, unit }`. -/
structure RecipeIngredient where
  name : String
  quantity : ℚ
  unit : String
deriving DecidableEq, Repr

/-- The parts of a catalog `Recipe` the serving scaler reads (the catalog's
`id`, `name`, `cuisine`, `tags`, `description` and `instructions` fields
play no part in the scaling computation). -/
structure Recipe where
  baseServings : ℕ
  ingredients : List RecipeIngredient
deriving DecidableEq, Repr

/-- `formatQuantity` from `RecipeCard` (lines 130–138): below `1` round to
two decimals; whole numbers unchanged; otherwise round to one decimal.
`Number.isInteger` on an exact rational is `den = 1`. -/
def formatQuantity (q : ℚ) : ℚ :=
  if q < 1 then round2 q
  else if q.den = 1 then q
  else round1 q

/-- The serving scaler of `RecipeCard` (lines 124–138, 186–199):
`multiplier = servings / recipe.baseServings`, and each ingredient is
displayed as `formatQuantity(ingredient.quantity * multiplier)` next to its
name and unit.  The component is a total function of `servings`; no
validation or error path exists in the source. -/
def scaleRecipe (r : Recipe) (servings : ℤ) : List (String × ℚ × String) :=
  let multiplier : ℚ := (servings : ℚ) / (r.baseServings : ℚ)
  r.ingredients.map fun i => (i.name, formatQuantity (i.quantity * multiplier), i.unit)

/-- A concrete one-ingredient recipe used to exercise the scaler. -/
def flourRecipe : Recipe :=
  ⟨2, [⟨"flour", 3/2, "cups"⟩]⟩

/-- A concrete recipe whose single ingredient has a positive quantity small
enough to round to zero at two decimal places. -/
def saffronRecipe : Recipe :=
  ⟨1, [⟨"saffron", 1/250, "g"⟩]⟩

/-! ## Helper lemmas -/

theorem dropWhile_self (p : Char → Bool) (l : List Char) :
    (l.dropWhile p).dropWhile p = l.dropWhile p := by
  induction l with
  | nil => rfl
  | cons c cs ih =>
    rw [List.dropWhile_cons]
    by_cases h : p c
    · simpa [h] using ih
    · simp [List.dropWhile_cons, h]

theorem dropWhile_head_false (p : Char → Bool) (c : Char) (t l : List Char)
    (h : l.dropWhile p = c :: t) : p c = false := by
  induction l with
  | nil => simp at h
  | cons x xs ih =>
    rw [List.dropWhile_cons] at h
    by_cases hx : p x
    · rw [if_pos hx] at h
      exact ih h
    · rw [if_neg hx] at h
      injection h with h1 h2
      subst h1
      simpa using hx

theorem dropWhile_append_last (p : Char → Bool) (c : Char) (h : p c = false)
    (xs : List Char) : (xs ++ [c]).dropWhile p = xs.dropWhile p ++ [c] := by
  induction xs with
  | nil => simp [List.dropWhile_cons, h]
  | cons x t ih =>
    by_cases hx : p x
    · simp [List.dropWhile_cons, hx, ih]
    · simp [List.dropWhile_cons, hx]

theorem dropWhile_trimList (l : List Char) :
    (trimList l).dropWhile jsSpace = trimList l := by
  unfold trimList
  cases ha : l.dropWhile jsSpace with
  | nil => simp
  | cons c t =>
    have hc : jsSpace c = false := dropWhile_head_false jsSpace c t l ha
    rw [show (c :: t).reverse = t.reverse ++ [c] by simp]
    rw [dropWhile_append_last jsSpace c hc t.reverse]
    rw [List.reverse_append]
    simp [List.dropWhile_cons, hc]

theorem trimList_trimList (l : List Char) : trimList (trimList l) = trimList l := by
  conv_lhs => rw [trimList, dropWhile_trimList l]
  rw [trimList, List.reverse_reverse]
  rw [dropWhile_self]

theorem dropWhile_eq_self_of_none (p : Char → Bool) (l : List Char)
    (h : ∀ c ∈ l, p c = false) : l.dropWhile p = l := by
  cases l with
  | nil => rfl
  | cons c cs => simp [List.dropWhile_cons, h c (by simp)]

theorem trimList_eq_self_of_none (l : List Char)
    (h : ∀ c ∈ l, jsSpace c = false) : trimList l = l := by
  rw [trimList, dropWhile_eq_self_of_none jsSpace l h,
    dropWhile_eq_self_of_none jsSpace l.reverse (fun c hc => h c (by simpa using hc))]
  simp

theorem runLen_eq_zero (p : Char → Bool) (l : List Char)
    (h : ∀ c ∈ l, p c = false) : runLen p l = 0 := by
  cases l with
  | nil => rfl
  | cons c cs => simp [runLen, h c (by simp)]

theorem tailAfterWs_of_nospace (r : List Char)
    (h : ∀ c ∈ r, jsSpace c = false) : tailAfterWs r = none := by
  rw [tailAfterWs, runLen_eq_zero jsSpace r h]
  rfl

theorem tailAfterNum_of_nospace (r : List Char)
    (h : ∀ c ∈ r, jsSpace c = false) : tailAfterNum r = none := by
  rw [tailAfterNum, List.findSome?_eq_none_iff]
  intro oj _
  cases oj with
  | some j =>
    show Option.map _ (tailAfterWs (r.drop j)) = none
    rw [tailAfterWs_of_nospace (r.drop j)
      (fun c hc => h c (List.drop_subset j r hc))]
    rfl
  | none =>
    show Option.map _ (tailAfterWs r) = none
    rw [tailAfterWs_of_nospace r h]
    rfl

theorem matchTail_of_nospace (r : List Char)
    (h : ∀ c ∈ r, jsSpace c = false) : matchTail r = none := by
  rw [matchTail, List.findSome?_eq_none_iff]
  intro i _
  exact tailAfterNum_of_nospace (r.drop i) (fun c hc => h c (List.drop_subset i r hc))

theorem numberCands_snd_subset (cs : List Char) (pr : List Char × List Char)
    (h : pr ∈ numberCands cs) : pr.2 ⊆ cs := by
  rw [numberCands] at h
  by_cases hd : runLen jsDigit cs = 0
  · simp [hd] at h
  · rw [if_neg hd] at h
    rcases List.mem_append.mp h with h1 | h2
    · rcases List.mem_append.mp h1 with hfrac | hmid
      · revert hfrac
        cases hrest : cs.drop (runLen jsDigit cs) with
        | nil => intro hfrac; simp at hfrac
        | cons c rest =>
          by_cases hc : c = '.'
          · subst hc
            intro hfrac
            simp only [List.mem_map] at hfrac
            obtain ⟨j, _, rfl⟩ := hfrac
            intro x hx
            have : x ∈ ('.' :: rest) := List.mem_cons_of_mem _ (List.drop_subset j rest hx)
            rw [← hrest] at this
            exact List.drop_subset _ cs this
          · intro hfrac
            simp [hc] at hfrac
      · simp only [List.mem_singleton] at hmid
        subst hmid
        exact List.drop_subset _ cs
    · simp only [List.mem_map] at h2
      obtain ⟨i, _, rfl⟩ := h2
      exact List.drop_subset _ cs

theorem matchEntry_of_nospace (cs : List Char)
    (h : ∀ c ∈ cs, jsSpace c = false) : matchEntry cs = none := by
  rw [matchEntry, List.findSome?_eq_none_iff]
  intro pr hpr
  rw [matchTail_of_nospace pr.2 (fun c hc => h c (numberCands_snd_subset cs pr hpr hc))]
  rfl

theorem splitSegs_single (cs : List Char)
    (h : ∀ c ∈ cs, (c = ',' || c = '\n') = false) : splitSegs cs = [cs] := by
  induction cs with
  | nil => rfl
  | cons c t ih =>
    rw [splitSegs]
    rw [if_neg (by simpa using h c (by simp))]
    rw [ih (fun x hx => h x (by simp [hx]))]

theorem jsDigit_not_space (c : Char) (h : jsDigit c = true) : jsSpace c = false := by
  simp only [jsDigit, Bool.and_eq_true, decide_eq_true_eq] at h
  simp only [jsSpace, Bool.or_eq_false_iff, decide_eq_false_iff_not, Bool.and_eq_false_iff]
  omega

theorem sumScores_eq_sum (l : List Detection) :
    sumScores l = (l.map (fun p => p.score)).sum := by
  rw [sumScores, List.sum_eq_foldl, List.foldl_map]

theorem jsDigit_not_sep (c : Char) (h : jsDigit c = true) :
    (c = ',' || c = '\n') = false := by
  simp only [Bool.or_eq_false_iff, decide_eq_false_iff_not]
  constructor
  · rintro rfl
    exact absurd h (by decide)
  · rintro rfl
    exact absurd h (by decide)

/-! ## Claim theorems -/

/-- C1: `parse("2 cups spinach, 1 lime, 1 avocado")` yields exactly three
items in order: `{name:"cups spinach", quantity:2}`, `{name:"lime",
quantity:1}`, `{name:"avocado", quantity:1}`. -/
theorem parse_example_three_items :
    parseManualEntry ("2 cups spinach, 1 lime, 1 avocado") =
      [⟨"cups spinach", some 2⟩, ⟨"lime", some 1⟩, ⟨"avocado", some 1⟩] := by
  decide

/-- C2 counterexample: the claim that every parsed name is normalized
(trimmed, whitespace-collapsed, lowercased) is false: on the segment
`"2 cups  Baby  Spinach"` the parser emits the name `"cups Baby  Spinach"`,
which keeps its capital letters and its internal double space, so it is not
equal to its own spec-normalized form. -/
theorem parse_name_not_normalized :
    parseManualEntry ("2 cups  Baby  Spinach") = [⟨"cups Baby  Spinach", some 2⟩] ∧
    specNormalize ("cups Baby  Spinach") ≠ "cups Baby  Spinach" := by
  constructor
  · decide
  · decide

/-- C2 amended: every name `parseManualEntry` produces carries no
surrounding whitespace (it is a fixed point of `trim`); the source never
lowercases it or collapses its internal whitespace. -/
theorem parse_names_trimmed (input : String) (it : PantryItem)
    (h : it ∈ parseManualEntry input) : trimString it.name = it.name := by
  rw [parseManualEntry] at h
  rcases List.mem_map.mp h with ⟨seg, hseg, rfl⟩
  have hsegtrim : trimList seg = seg := by
    have hm : seg ∈ (splitSegs input.data).map trimList := List.mem_of_mem_filter hseg
    rcases List.mem_map.mp hm with ⟨s0, _, rfl⟩
    exact trimList_trimList s0
  cases hm : matchEntry seg with
  | some tri =>
    obtain ⟨qty, unitTok, nm⟩ := tri
    cases unitTok with
    | some u =>
      simp only [parseSegment, hm]
      show trimString (String.mk (trimList (u ++ ' ' :: nm))) = _
      rw [trimString]
      show String.mk (trimList (trimList (u ++ ' ' :: nm))) = _
      rw [trimList_trimList]
    | none =>
      simp only [parseSegment, hm]
      show trimString (String.mk (trimList nm)) = _
      rw [trimString]
      show String.mk (trimList (trimList nm)) = _
      rw [trimList_trimList]
  | none =>
    simp only [parseSegment, hm]
    show trimString (String.mk seg) = _
    rw [trimString]
    show String.mk (trimList seg) = _
    rw [hsegtrim]

theorem parse_names_trimmed_witness :
    trimString (⟨"cups spinach", some 2⟩ : PantryItem).name =
      (⟨"cups spinach", some 2⟩ : PantryItem).name :=
  parse_names_trimmed ("2 cups spinach") ⟨"cups spinach", some 2⟩ (by decide)

/-- C10: a manual-entry segment that is a bare numeral (digits, optionally
a dot and more digits) with nothing after it fails the grammar — the regex
demands whitespace and a name after the number — so the whole segment
becomes the item's name and the quantity stays unset. -/
theorem bare_number_segment (cs : List Char) (h : numeralShape cs) :
    parseManualEntry (String.mk cs) = [⟨String.mk cs, none⟩] := by
  have hdig : ∀ c ∈ cs, jsDigit c = true ∨ c = '.' := by
    rcases h with ⟨_, hd⟩ | ⟨ds, fs, _, _, hds, hfs, rfl⟩
    · exact fun c hc => Or.inl (hd c hc)
    · intro c hc
      rcases List.mem_append.mp hc with h1 | h2
      · exact Or.inl (hds c h1)
      · rcases List.mem_cons.mp h2 with rfl | h3
        · exact Or.inr rfl
        · exact Or.inl (hfs c h3)
  have hne : cs ≠ [] := by
    rcases h with ⟨hne, _⟩ | ⟨ds, fs, _, _, _, _, rfl⟩
    · exact hne
    · simp
  have hnospace : ∀ c ∈ cs, jsSpace c = false := by
    intro c hc
    rcases hdig c hc with hd | rfl
    · exact jsDigit_not_space c hd
    · decide
  have hnosep : ∀ c ∈ cs, (c = ',' || c = '\n') = false := by
    intro c hc
    rcases hdig c hc with hd | rfl
    · exact jsDigit_not_sep c hd
    · decide
  rw [parseManualEntry]
  rw [show (String.mk cs).data = cs from rfl, splitSegs_single cs hnosep]
  rw [List.map_singleton, trimList_eq_self_of_none cs hnospace]
  rw [show (List.filter (fun s => !s.isEmpty) [cs]) = [cs] by
    simp [List.filter_cons, hne]]
  rw [List.map_singleton]
  simp only [parseSegment, matchEntry_of_nospace cs hnospace]

theorem bare_number_segment_witness :
    parseManualEntry (String.mk ['2']) = [⟨String.mk ['2'], none⟩] :=
  bare_number_segment ['2'] (Or.inl ⟨by decide, by decide⟩)

/-- C5: a detection with confidence exactly `0.4` whose lowercased label is
allow-listed survives the filter pipeline (and yields a pantry item in the
post-processing output), and every survivor has confidence at least `0.4` —
so any detection with confidence strictly below `0.4` is dropped. -/
theorem detection_threshold (preds : List Detection) (d : Detection) :
    (d ∈ preds → d.score = 0.4 →
      allowedVisionLabels.contains (lowerString d.className) = true →
      (⟨lowerString d.className, d.score⟩ : Detection) ∈ detectionSurvivors preds ∧
      (⟨lowerString d.className, some (round2 (d.score * 2))⟩ : PantryItem) ∈
        (detectIngredients preds).1) ∧
    (∀ d' ∈ detectionSurvivors preds, (0.4 : ℚ) ≤ d'.score) := by
  constructor
  · intro h1 h2 h3
    have hsc : (0.4 : ℚ) ≤ d.score := le_of_eq h2.symm
    have step1 : d ∈ preds.filter (fun p => decide ((0.4 : ℚ) ≤ p.score)) :=
      List.mem_filter.mpr ⟨h1, decide_eq_true hsc⟩
    have step2 : (⟨lowerString d.className, d.score⟩ : Detection) ∈
        (preds.filter (fun p => decide ((0.4 : ℚ) ≤ p.score))).map
          (fun p => (⟨lowerString p.className, p.score⟩ : Detection)) :=
      List.mem_map_of_mem _ step1
    have hs : (⟨lowerString d.className, d.score⟩ : Detection) ∈
        detectionSurvivors preds := by
      simp only [detectionSurvivors]
      exact List.mem_filter.mpr ⟨step2, h3⟩
    refine ⟨hs, ?_⟩
    have hne : detectionSurvivors preds ≠ [] := List.ne_nil_of_mem hs
    simp only [detectIngredients]
    rw [if_neg (by simpa [List.isEmpty_iff] using hne)]
    exact List.mem_map_of_mem _ hs
  · intro d' hd'
    simp only [detectionSurvivors] at hd'
    have hd2 := List.mem_of_mem_filter hd'
    rcases List.mem_map.mp hd2 with ⟨d0, hd0, rfl⟩
    exact of_decide_eq_true (List.mem_filter.mp hd0).2

theorem detection_threshold_witness :
    (⟨"apple", (0.4 : ℚ)⟩ : Detection) ∈
      detectionSurvivors [⟨"Apple", (0.4 : ℚ)⟩] ∧
    (⟨"apple", some (round2 ((0.4 : ℚ) * 2))⟩ : PantryItem) ∈
      (detectIngredients [⟨"Apple", (0.4 : ℚ)⟩]).1 :=
  (detection_threshold [⟨"Apple", (0.4 : ℚ)⟩] ⟨"Apple", (0.4 : ℚ)⟩).1
    (List.mem_singleton.mpr rfl) rfl (by decide)

/-- C6: whenever no detection survives the confidence filter and the
allow-list filter (in particular for the empty detection list, and for
lists whose labels all fail the allow-list), the post-processing returns
the empty item list paired with aggregate confidence `0`; being a total
function, it raises nothing. -/
theorem no_survivors_empty_result (preds : List Detection)
    (h : detectionSurvivors preds = []) : detectIngredients preds = ([], 0) := by
  simp [detectIngredients, h]

theorem no_survivors_empty_result_witness :
    detectIngredients [⟨"person", (0.9 : ℚ)⟩, ⟨"apple", (0.3 : ℚ)⟩] = ([], 0) ∧
    detectIngredients [] = ([], 0) := by
  constructor
  · refine no_survivors_empty_result _ ?_
    have h1 : ((0.4 : ℚ) ≤ (0.9 : ℚ)) = True := by norm_num
    have h2 : ((0.4 : ℚ) ≤ (0.3 : ℚ)) = False := by norm_num
    simp only [detectionSurvivors, List.filter_cons, List.filter_nil, h1, h2]
    simp only [decide_True, decide_False, if_true, if_false, List.map_cons, List.map_nil]
    decide
  · exact no_survivors_empty_result [] rfl

/-- C7: when at least one detection survives, each survivor yields one
pantry item whose name is the (lowercased) label and whose quantity is the
confidence times two rounded to two decimal places, the aggregate
confidence is the arithmetic mean (sum over length) of the surviving
confidences, and every survivor stems from an input detection via label
lowercasing. -/
theorem survivors_output (preds : List Detection)
    (h : detectionSurvivors preds ≠ []) :
    (detectIngredients preds).1 =
      (detectionSurvivors preds).map
        (fun p => (⟨p.className, some (round2 (p.score * 2))⟩ : PantryItem)) ∧
    (detectIngredients preds).2 =
      ((detectionSurvivors preds).map (fun p => p.score)).sum /
        ((detectionSurvivors preds).length : ℚ) ∧
    ∀ p ∈ detectionSurvivors preds, ∃ d ∈ preds,
      p.className = lowerString d.className ∧ p.score = d.score := by
  refine ⟨?_, ?_, ?_⟩
  · simp [detectIngredients, List.isEmpty_iff, h]
  · simp [detectIngredients, List.isEmpty_iff, h, sumScores_eq_sum]
  · intro p hp
    simp only [detectionSurvivors] at hp
    have hp2 := List.mem_of_mem_filter hp
    rcases List.mem_map.mp hp2 with ⟨d, hd, rfl⟩
    exact ⟨d, List.mem_of_mem_filter hd, rfl, rfl⟩

theorem survivors_output_witness :
    (detectIngredients [⟨"Apple", (1 : ℚ)/2⟩]).1 =
      (detectionSurvivors [⟨"Apple", (1 : ℚ)/2⟩]).map
        (fun p => (⟨p.className, some (round2 (p.score * 2))⟩ : PantryItem)) ∧
    (detectIngredients [⟨"Apple", (1 : ℚ)/2⟩]).2 =
      ((detectionSurvivors [⟨"Apple", (1 : ℚ)/2⟩]).map (fun p => p.score)).sum /
        ((detectionSurvivors [⟨"Apple", (1 : ℚ)/2⟩]).length : ℚ) := by
  have hs : detectionSurvivors [⟨"Apple", (1 : ℚ)/2⟩] = [⟨"apple", (1 : ℚ)/2⟩] := by
    have h1 : (decide ((0.4 : ℚ) ≤ (1 : ℚ)/2)) = true := decide_eq_true (by norm_num)
    simp only [detectionSurvivors, List.filter_cons, List.filter_nil, h1, if_true,
      List.map_cons, List.map_nil]
    rfl
  have h := survivors_output [⟨"Apple", (1 : ℚ)/2⟩] (by rw [hs]; exact List.cons_ne_nil _ _)
  exact ⟨h.1, h.2.1⟩

/-- C3 counterexample: the claim requires the scaler to signal a
`ValidationError` when `targetServings ≤ 0`, but the source component has
no error path at all: at `targetServings = 0` (with `baseServings = 2 > 0`)
it happily returns a scaled ingredient list (every quantity scaled by
`0 / 2 = 0`) instead of signalling anything. -/
theorem scaler_accepts_zero_servings :
    scaleRecipe flourRecipe 0 = [("flour", 0, "cups")] := by
  rw [scaleRecipe]
  norm_num [flourRecipe, formatQuantity, round2]

/-- C3 amended: the serving scaler never rejects any argument: for every
integer `targetServings` — positive or not, inside or outside the UI range
— it returns one `(name, displayed quantity, unit)` triple per ingredient,
each computed by the multiplier/rounding formula. -/
theorem scaler_total (r : Recipe) (t : ℤ) (k : Nat)
    (h : k < r.ingredients.length) :
    (scaleRecipe r t).length = r.ingredients.length ∧
    (scaleRecipe r t).get ⟨k, by simpa [scaleRecipe] using h⟩ =
      ((r.ingredients.get ⟨k, h⟩).name,
        formatQuantity
          ((r.ingredients.get ⟨k, h⟩).quantity * ((t : ℚ) / (r.baseServings : ℚ))),
        (r.ingredients.get ⟨k, h⟩).unit) := by
  constructor
  · simp [scaleRecipe]
  · simp [scaleRecipe]

theorem scaler_total_witness :
    (scaleRecipe flourRecipe 100).length = flourRecipe.ingredients.length ∧
    (scaleRecipe flourRecipe 100).get ⟨0, by decide⟩ =
      ((flourRecipe.ingredients.get ⟨0, by decide⟩).name,
        formatQuantity
          ((flourRecipe.ingredients.get ⟨0, by decide⟩).quantity *
            (((100 : ℤ) : ℚ) / (flourRecipe.baseServings : ℚ))),
        (flourRecipe.ingredients.get ⟨0, by decide⟩).unit) :=
  scaler_total flourRecipe 100 0 (by decide)

/-- C4 counterexample: a positive ingredient quantity can display as `0`:
with quantity `1/250 = 0.004`, `baseServings = 1` and `targetServings = 1`
the raw scaled quantity is `0.004 < 1`, and rounding to two decimal places
yields exactly `0`, not a positive number. -/
theorem tiny_quantity_displays_zero :
    (0 : ℚ) < 1/250 ∧ 1 ≤ saffronRecipe.baseServings ∧ (0 : ℤ) < 1 ∧
    scaleRecipe saffronRecipe 1 = [("saffron", 0, "g")] := by
  refine ⟨by norm_num, by norm_num [saffronRecipe], by norm_num, ?_⟩
  rw [scaleRecipe]
  norm_num [saffronRecipe, formatQuantity, round2, round_eq]

/-- C4 amended: the displayed scaled quantity is strictly positive for a
positive source quantity, `baseServings ≥ 1` and positive integer
`targetServings`, provided the raw scaled quantity is at least `1/200`
(i.e. `0.005`, the least value that two-decimal rounding sends to `0.01`);
raw values below `1/200` are displayed as `0`. -/
theorem scaled_quantity_pos (q : ℚ) (base : ℕ) (t : ℤ)
    (hq : 0 < q) (hbase : 1 ≤ base) (ht : 0 < t)
    (hraw : 1/200 ≤ q * ((t : ℚ) / (base : ℚ))) :
    0 < formatQuantity (q * ((t : ℚ) / (base : ℚ))) := by
  set raw := q * ((t : ℚ) / (base : ℚ)) with hdef
  rw [formatQuantity]
  split_ifs with h1 h2
  · rw [round2]
    have hr : (1 : ℤ) ≤ round (raw * 100) := by
      rw [round_eq, Int.le_floor]
      push_cast
      linarith
    have hr' : (0 : ℚ) < (round (raw * 100) : ℚ) := by
      exact_mod_cast lt_of_lt_of_le Int.zero_lt_one hr
    exact div_pos hr' (by norm_num)
  · exact lt_of_lt_of_le one_pos (not_lt.mp h1)
  · rw [round1]
    have hraw1 : (1 : ℚ) ≤ raw := not_lt.mp h1
    have hr : (10 : ℤ) ≤ round (raw * 10) := by
      rw [round_eq, Int.le_floor]
      push_cast
      linarith
    have hr' : (0 : ℚ) < (round (raw * 10) : ℚ) := by
      have : (0 : ℤ) < round (raw * 10) := lt_of_lt_of_le (by norm_num) hr
      exact_mod_cast this
    exact div_pos hr' (by norm_num)

theorem scaled_quantity_pos_witness :
    0 < formatQuantity ((1/2 : ℚ) * (((1 : ℤ) : ℚ) / ((1 : ℕ) : ℚ))) :=
  scaled_quantity_pos (1/2) 1 1 (by norm_num) le_rfl (by norm_num) (by norm_num)

/-- C8: the quantity displayed for the `k`-th ingredient is exactly
`formatQuantity` of `raw = quantity * (targetServings / baseServings)`, and
`formatQuantity` implements exactly the stated policy: for `raw < 1`,
half-up rounding at two decimal places; for whole `raw ≥ 1`, `raw` itself;
otherwise half-up rounding at one decimal place. -/
theorem display_rounding_policy (r : Recipe) (t : ℤ) (k : Nat)
    (h : k < r.ingredients.length) :
    ((scaleRecipe r t).get ⟨k, by simpa [scaleRecipe] using h⟩).2.1 =
      formatQuantity
        ((r.ingredients.get ⟨k, h⟩).quantity * ((t : ℚ) / (r.baseServings : ℚ))) ∧
    ∀ raw : ℚ,
      (raw < 1 → formatQuantity raw = (round (raw * 100) : ℚ) / 100) ∧
      (1 ≤ raw → (∃ n : ℤ, raw = (n : ℚ)) → formatQuantity raw = raw) ∧
      (1 ≤ raw → (∀ n : ℤ, raw ≠ (n : ℚ)) →
        formatQuantity raw = (round (raw * 10) : ℚ) / 10) := by
  constructor
  · simp [scaleRecipe]
  · intro raw
    refine ⟨?_, ?_, ?_⟩
    · intro h1
      rw [formatQuantity, if_pos h1, round2]
    · rintro h1 ⟨n, rfl⟩
      rw [formatQuantity, if_neg (not_lt.mpr h1), if_pos (Rat.den_intCast n)]
    · intro h1 h2
      rw [formatQuantity, if_neg (not_lt.mpr h1), if_neg, round1]
      intro hden
      exact h2 raw.num ((Rat.den_eq_one_iff raw).mp hden).symm

theorem display_rounding_policy_witness :
    ((scaleRecipe flourRecipe 3).get ⟨0, by decide⟩).2.1 =
      formatQuantity ((flourRecipe.ingredients.get ⟨0, by decide⟩).quantity *
        (((3 : ℤ) : ℚ) / (flourRecipe.baseServings : ℚ))) :=
  (display_rounding_policy flourRecipe 3 0 (by decide)).1

/-- C9: scaling a recipe to its own `baseServings` (multiplier `1`) leaves
every ingredient quantity unchanged up to the display-rounding rule — the
displayed value is `formatQuantity` of the original quantity — and the
rounding rule keeps `2` at `2` and sends `1/3 = 0.333…` to `0.33`. -/
theorem scaling_exactness (r : Recipe) (hb : 1 ≤ r.baseServings) :
    scaleRecipe r (r.baseServings : ℤ) =
      r.ingredients.map (fun i => (i.name, formatQuantity i.quantity, i.unit)) ∧
    formatQuantity 2 = 2 ∧ formatQuantity (1/3) = 33/100 := by
  refine ⟨?_, ?_, ?_⟩
  · have hb0 : ((r.baseServings : ℚ)) ≠ 0 := by
      have : 0 < r.baseServings := hb
      positivity
    rw [scaleRecipe]
    have hm : (((r.baseServings : ℤ) : ℚ)) / (r.baseServings : ℚ) = 1 := by
      rw [Int.cast_natCast]
      exact div_self hb0
    rw [hm]
    simp
  · rw [formatQuantity, if_neg (by norm_num), if_pos (show (2 : ℚ).den = 1 by rfl)]
  · rw [formatQuantity, if_pos (by norm_num), round2, round_eq]
    norm_num

theorem scaling_exactness_witness :
    scaleRecipe flourRecipe (flourRecipe.baseServings : ℤ) =
      flourRecipe.ingredients.map (fun i => (i.name, formatQuantity i.quantity, i.unit)) ∧
    formatQuantity 2 = 2 ∧ formatQuantity (1/3) = 33/100 :=
  scaling_exactness flourRecipe (by norm_num [flourRecipe])
